import Mathlib

/-!
Shallow embedding of `src/museums.py` (Museum-Search).

The query-time core consists of:
* `MuseumsService.get_by_id` (point lookup, coercing the identifier with `int(id)`),
* `Navigator.__get_museums_with_locales_and_exhibits` (the join/aggregation),
* `Navigator.__filter_relevant_museums` (relevance filter),
* `Navigator.get_sorted_locales` (grouping by location).

Python dictionaries preserve insertion order, so the aggregate mapping and the
`defaultdict` of locales are modelled as association lists with in-place update.
Python exceptions (`ValueError` from `int`, `IndexError` from `[0]` on an empty
list, `ZeroDivisionError`) are modelled with `Except`.  Python's `sorted` is a
stable ascending sort, modelled by `List.mergeSort`; floats `0.04` and `0.8`
are modelled as rationals.
-/

namespace Museums

/-- A Python value that can appear as `exhibit['data']['museum']['code']`:
either an integer or a string. -/
inductive PyVal where
  | int (n : Int)
  | str (s : String)
deriving DecidableEq, Repr

/-- One decimal digit of an integer literal. -/
def charDigit? (c : Char) : Option Nat :=
  if c = '0' then some 0 else if c = '1' then some 1 else if c = '2' then some 2
  else if c = '3' then some 3 else if c = '4' then some 4 else if c = '5' then some 5
  else if c = '6' then some 6 else if c = '7' then some 7 else if c = '8' then some 8
  else if c = '9' then some 9 else none

/-- Accumulate decimal digits; `none` on the first non-digit character. -/
def digitsAux : List Char → Nat → Option Nat
  | [], acc => some acc
  | c :: cs, acc =>
    match charDigit? c with
    | some d => digitsAux cs (10 * acc + d)
    | none => none

/-- A non-empty run of decimal digits, as a number. -/
def parseDigits : List Char → Option Nat
  | [] => none
  | c :: cs => digitsAux (c :: cs) 0

/-- Python's `int(id)` coercion: identity on integers; on strings, an optional
sign followed by at least one decimal digit (the core of `int()`'s literal
syntax), `none` when the coercion would raise `ValueError`. -/
def PyVal.toIntCoe : PyVal → Option Int
  | .int n => some n
  | .str s =>
    match s.data with
    | '-' :: cs => (parseDigits cs).map (fun n => -(n : Int))
    | cs => (parseDigits cs).map (fun n => (n : Int))

/-- The fields of a museum document that the join reads:
`museum['data']['general']['locale']['name']` and `museum['data']['general']['name']`. -/
structure Museum where
  locale : Option String
  name : Option String
deriving DecidableEq, Repr

/-- The fields of an exhibit document that the join reads:
`exhibit['data']['museum']['code']` and `exhibit['data']['name']`. -/
structure Exhibit where
  code : Option PyVal
  name : Option String
deriving DecidableEq, Repr

/-- The catalog store backing `MuseumsService` / `ExhibitService`:
`search` models `ExhibitService.get_by_name`, `museums` models the
`find_one` lookup by `data.general.externalIds.statistic`. -/
structure Store where
  search : String → List Exhibit
  museums : Int → Option Museum

/-- Python exceptions the core can raise. -/
inductive PyErr where
  | valueError
  | indexError
  | zeroDivisionError
deriving DecidableEq, Repr

/-- `MuseumsService.get_by_id`: coerces the identifier with `int(id)`
(raising `ValueError` when not convertible), then performs the point lookup. -/
def get_by_id (st : Store) (id : PyVal) : Except PyErr (Option Museum) :=
  match id.toIntCoe with
  | none => .error .valueError
  | some n => .ok (st.museums n)

/-- One aggregate of the mapping built by the join: the museum's display name,
location name, and accumulated exhibit names. -/
structure Agg where
  name : String
  locale : String
  exhibits : List String
deriving DecidableEq, Repr

/-- The aggregate mapping `museums`: a Python dict keyed by the raw
`museum_id` value, in insertion order. -/
abbrev AggMap := List (PyVal × Agg)

/-- Dict read: `museums[museum_id]` / `museum_id in museums.keys()`. -/
def lookupA : AggMap → PyVal → Option Agg
  | [], _ => none
  | (k', a) :: m, k => if k' = k then some a else lookupA m k

/-- In-place `museums[museum_id]['exhibits'].append(exhibit_name)`. -/
def appendEx : AggMap → PyVal → String → AggMap
  | [], _, _ => []
  | (k, a) :: rest, mid, nm =>
    if k = mid then (k, { a with exhibits := a.exhibits ++ [nm] }) :: rest
    else (k, a) :: appendEx rest mid nm

/-- An exhibit is valid when both `museum_id` and `exhibit_name` are non-null
(the condition of line 115 of the source). -/
def validExhibit (e : Exhibit) : Prop := e.code ≠ none ∧ e.name ≠ none

instance : DecidablePred validExhibit := fun e => by
  unfold validExhibit; infer_instance

/-- The result of one aggregation run: the final mapping together with the
trace of identifiers passed to `get_by_id` (for lookup counting). -/
structure AggRun where
  map : AggMap
  lookups : List PyVal
deriving DecidableEq, Repr

/-- The loop body of `Navigator.__get_museums_with_locales_and_exhibits`
(lines 112–127): iterate the exhibits, skip those with a null code or name,
append to an existing aggregate, otherwise look the museum up and create an
aggregate when its locale and name are non-null. -/
def aggregate (st : Store) : List Exhibit → AggMap → List PyVal → Except PyErr AggRun
  | [], m, ls => .ok ⟨m, ls⟩
  | e :: rest, m, ls =>
    match e.code, e.name with
    | some mid, some ename =>
      if (lookupA m mid).isSome then
        aggregate st rest (appendEx m mid ename) ls
      else
        match get_by_id st mid with
        | .error err => .error err
        | .ok none => aggregate st rest m (ls ++ [mid])
        | .ok (some mus) =>
          match mus.locale, mus.name with
          | some loc, some mname =>
              aggregate st rest (m ++ [(mid, ⟨mname, loc, [ename]⟩)]) (ls ++ [mid])
          | _, _ => aggregate st rest m (ls ++ [mid])
    | _, _ => aggregate st rest m ls

/-- `Navigator.__get_museums_with_locales_and_exhibits(query)`:
run the aggregation over the search result, starting from an empty dict. -/
def get_museums_with_locales_and_exhibits (st : Store) (query : String) :
    Except PyErr AggRun :=
  aggregate st (st.search query) [] []

/-- The ascending comparison used on line 139: `key=lambda m: len(m['exhibits'])`. -/
def byExhibits (a b : Agg) : Bool := a.exhibits.length ≤ b.exhibits.length

/-- Line 139: `list(reversed(sorted(museums.values(), key=...)))` —
a stable ascending sort by exhibit count, then a full reversal. -/
def sortStage (vals : List Agg) : List Agg :=
  (vals.mergeSort byExhibits).reverse

/-- The ratio test of line 141: `len(m['exhibits']) / max_exhibits >= border`. -/
def ratioOk (maxE : Nat) (border : ℚ) (m : Agg) : Bool :=
  border ≤ (m.exhibits.length : ℚ) / (maxE : ℚ)

/-- `Navigator.__filter_relevant_museums(museums, border, select)`
(lines 130–142).  `res_museums[0]` raises `IndexError` on an empty input;
the division raises `ZeroDivisionError` when the top count is zero. -/
def filter_relevant (museums : AggMap) (border select : ℚ) :
    Except PyErr (List Agg) :=
  let res := sortStage (museums.map Prod.snd)
  match res with
  | [] => .error .indexError
  | top :: _ =>
    let maxE := top.exhibits.length
    if maxE = 0 then .error .zeroDivisionError
    else
      let res2 := res.filter (ratioOk maxE border)
      .ok (res2.take (Nat.ceil ((res2.length : ℚ) * select)))

/-- `locales[museum['locale']].append(museum)` on a `defaultdict(list)`:
append to the existing group, or create a new key at the end. -/
def addToGroup : List (String × List Agg) → String → Agg → List (String × List Agg)
  | [], loc, m => [(loc, [m])]
  | (l, g) :: rest, loc, m =>
    if l = loc then (l, g ++ [m]) :: rest
    else (l, g) :: addToGroup rest loc m

/-- The grouping loop of lines 151–154, producing the `locales` defaultdict
with keys in first-seen order. -/
def groupLoc (ms : List Agg) : List (String × List Agg) :=
  ms.foldl (fun acc m => addToGroup acc m.locale m) []

/-- Dict read `locales[l]` (a `defaultdict(list)`, so a missing key gives `[]`). -/
def lookupG : List (String × List Agg) → String → List Agg
  | [], _ => []
  | (l', g) :: rest, l => if l' = l then g else lookupG rest l

/-- The ascending comparison of line 155: `key=lambda l: len(locales[l])`. -/
def localeLE (locales : List (String × List Agg)) (a b : String) : Bool :=
  (lookupG locales a).length ≤ (lookupG locales b).length

/-- Line 155: `list(reversed(sorted(list(locales.keys()), key=...)))`, the
locale keys (in first-seen order) stably sorted ascending by group size,
then reversed. -/
def sortedKeysOf (ms : List Agg) : List String :=
  (((groupLoc ms).map Prod.fst).mergeSort (localeLE (groupLoc ms))).reverse

/-- Lines 151–157 of `Navigator.get_sorted_locales`, applied to the filtered
museum sequence: group by locale, sort the keys ascending by group size and
reverse, truncate to `min(limit, len)`, and pair each key with its group. -/
def group_stage (ms : List Agg) (limit : Nat) : List (String × List Agg) :=
  let sortedKeys := sortedKeysOf ms
  let cut := sortedKeys.take (min limit sortedKeys.length)
  cut.map (fun l => (l, lookupG (groupLoc ms) l))

/-- `Navigator.get_sorted_locales(query, limit=7)`: the full pipeline. -/
def get_sorted_locales (st : Store) (query : String) (limit : Nat := 7) :
    Except PyErr (List (String × List Agg)) := do
  let run ← get_museums_with_locales_and_exhibits st query
  let ms ← filter_relevant run.map (4/100) (4/5)
  return group_stage ms limit

/-! ### Derived notions used to state the claims -/

/-- The distinct `museumId` values among the valid exhibits of a search result. -/
def distinctIds (es : List Exhibit) : List PyVal :=
  ((es.filter (fun e => decide (validExhibit e))).filterMap Exhibit.code).dedup

/-- The names of the valid exhibits referencing museum `mid`, in encounter
order (an exhibit with a null code or null name contributes nothing). -/
def namesFor (es : List Exhibit) (mid : PyVal) : List String :=
  es.filterMap (fun e => if e.code = some mid then e.name else none)

/-- The display name and locale a museum identifier resolves to, when its
lookup succeeds, the record exists and both fields are non-null. -/
def resolvedInfo (st : Store) (mid : PyVal) : Option (String × String) :=
  match get_by_id st mid with
  | .ok (some mus) =>
    match mus.name, mus.locale with
    | some nm, some loc => some (nm, loc)
    | _, _ => none
  | _ => none

/-- An identifier resolves when its lookup yields a museum record with
non-null display name and locale. -/
def resolves (st : Store) (mid : PyVal) : Bool :=
  (resolvedInfo st mid).isSome

/-- The relevance filter as the spec words it (§4.2 steps 3–5), applied to the
already descending-sorted sequence: keep the ratio survivors, then the first
`ceil(k * select)` of them, where `maxCount` is the top element's count. -/
def filterRelevantSpec (sorted : List Agg) (border select : ℚ) : List Agg :=
  match sorted with
  | [] => []
  | top :: _ =>
    let surv := sorted.filter (ratioOk top.exhibits.length border)
    surv.take (Nat.ceil ((surv.length : ℚ) * select))

/-! ### Concrete inputs used by counterexamples and witnesses -/

/-- A store whose search matches nothing. -/
def storeEmpty : Store := ⟨fun _ => [], fun _ => none⟩

/-- A store with two exhibits referencing museum 5, which is absent. -/
def storeAbsent : Store :=
  ⟨fun _ => [⟨some (.int 5), some "a"⟩, ⟨some (.int 5), some "b"⟩], fun _ => none⟩

/-- Two aggregates with equal exhibit counts, keyed by distinct identifiers. -/
def mapTie : AggMap :=
  [(.int 1, ⟨"A", "L", ["x"]⟩), (.int 2, ⟨"B", "L", ["y"]⟩)]

/-- The store of the spec's scenario A: three exhibits, two museums in CityA. -/
def storeA : Store :=
  ⟨fun _ => [⟨some (.int 1), some "Vase"⟩, ⟨some (.int 1), some "Urn"⟩,
             ⟨some (.int 2), some "Coin"⟩],
   fun n =>
     if n = 1 then some ⟨some "CityA", some "M1"⟩
     else if n = 2 then some ⟨some "CityA", some "M2"⟩
     else none⟩

/-- A store whose single exhibit carries a non-integer museum code. -/
def storeBadId : Store :=
  ⟨fun _ => [⟨some (.str "abc"), some "a"⟩], fun _ => none⟩

/-- Two aggregates in two distinct locales with equal group sizes. -/
def msTie : List Agg := [⟨"A", "L1", ["x"]⟩, ⟨"B", "L2", ["y"]⟩]

/-- A store whose museum 3 exists but has a null locale name. -/
def storeNullLocale : Store :=
  ⟨fun _ => [], fun n => if n = 3 then some ⟨none, some "M3"⟩ else none⟩

/-- The aggregation run produced by `storeA` on any query. -/
def runA : AggRun :=
  ⟨[(.int 1, ⟨"M1", "CityA", ["Vase", "Urn"]⟩),
    (.int 2, ⟨"M2", "CityA", ["Coin"]⟩)],
   [.int 1, .int 2]⟩

/-! ### Basic lemmas about the dictionary model -/

lemma lookupA_appendEx (m : AggMap) (mid k : PyVal) (nm : String) :
    lookupA (appendEx m mid nm) k =
      if k = mid then (lookupA m k).map (fun a => { a with exhibits := a.exhibits ++ [nm] })
      else lookupA m k := by
  induction m with
  | nil => simp [appendEx, lookupA]
  | cons p m ih =>
    obtain ⟨k', a⟩ := p
    by_cases h1 : k' = mid
    · subst h1
      by_cases h2 : k' = k
      · subst h2; simp [appendEx, lookupA]
      · have h2' : ¬ k = k' := fun h3 => h2 h3.symm
        simp [appendEx, lookupA, h2, h2']
    · by_cases h2 : k' = k
      · subst h2
        simp [appendEx, lookupA, h1]
      · simp [appendEx, lookupA, h1, h2, ih]

lemma appendEx_keys (m : AggMap) (mid : PyVal) (nm : String) :
    (appendEx m mid nm).map Prod.fst = m.map Prod.fst := by
  induction m with
  | nil => simp [appendEx]
  | cons p m ih =>
    obtain ⟨k', a⟩ := p
    by_cases h : k' = mid <;> simp [appendEx, h, ih]

lemma lookupA_isSome_iff (m : AggMap) (k : PyVal) :
    (lookupA m k).isSome ↔ k ∈ m.map Prod.fst := by
  induction m with
  | nil => simp [lookupA]
  | cons p m ih =>
    obtain ⟨k', a⟩ := p
    by_cases h : k' = k <;> simp [lookupA, h, ih]
    exact fun h1 => absurd h1.symm h

lemma lookupA_append_of_none (m m' : AggMap) (k : PyVal) (h : lookupA m k = none) :
    lookupA (m ++ m') k = lookupA m' k := by
  induction m with
  | nil => simp
  | cons p m ih =>
    obtain ⟨k', a⟩ := p
    by_cases h1 : k' = k
    · simp [lookupA, h1] at h
    · simp only [lookupA, h1, if_false] at h
      simpa [lookupA, h1] using ih h

lemma lookupA_append_of_some (m m' : AggMap) (k : PyVal) (a : Agg)
    (h : lookupA m k = some a) : lookupA (m ++ m') k = some a := by
  induction m with
  | nil => simp [lookupA] at h
  | cons p m ih =>
    obtain ⟨k', b⟩ := p
    by_cases h1 : k' = k
    · simp only [lookupA, h1, if_true] at h
      simpa [lookupA, h1] using h
    · simp only [lookupA, h1, if_false] at h
      simpa [lookupA, h1] using ih h

lemma lookupG_addToGroup (acc : List (String × List Agg)) (loc l : String) (m : Agg) :
    lookupG (addToGroup acc loc m) l =
      if l = loc then lookupG acc l ++ [m] else lookupG acc l := by
  induction acc with
  | nil =>
    by_cases h : l = loc <;> simp [addToGroup, lookupG, h]
    exact fun h1 => absurd h1.symm h
  | cons p acc ih =>
    obtain ⟨l', g⟩ := p
    by_cases h1 : l' = loc
    · subst h1
      by_cases h2 : l' = l
      · subst h2; simp [addToGroup, lookupG]
      · have h2' : ¬ l = l' := fun h3 => h2 h3.symm
        simp [addToGroup, lookupG, h2, h2']
    · by_cases h2 : l' = l
      · subst h2
        simp [addToGroup, lookupG, h1]
      · simp [addToGroup, lookupG, h1, h2, ih]

lemma groupLoc_go (ms : List Agg) (acc : List (String × List Agg)) (l : String) :
    lookupG (ms.foldl (fun acc m => addToGroup acc m.locale m) acc) l =
      lookupG acc l ++ ms.filter (fun a => decide (a.locale = l)) := by
  induction ms generalizing acc with
  | nil => simp
  | cons m ms ih =>
    simp only [List.foldl_cons, List.filter_cons, ih, lookupG_addToGroup]
    by_cases h : m.locale = l
    · simp [h]
    · have h' : ¬ l = m.locale := fun h1 => absurd h1.symm h
      simp [h, h']

/-- The group stored under a locale key is exactly the subsequence of the
input with that locale, in arrival order. -/
lemma lookupG_groupLoc (ms : List Agg) (l : String) :
    lookupG (groupLoc ms) l = ms.filter (fun a => decide (a.locale = l)) := by
  simpa [groupLoc, lookupG] using groupLoc_go ms [] l

/-! ### The sort stages -/

lemma byExhibits_trans : ∀ a b c : Agg, byExhibits a b → byExhibits b c → byExhibits a c := by
  intro a b c
  simp only [byExhibits, decide_eq_true_eq]
  omega

lemma byExhibits_total : ∀ a b : Agg, byExhibits a b || byExhibits b a := by
  intro a b
  simp only [byExhibits, Bool.or_eq_true, decide_eq_true_eq]
  omega

lemma localeLE_trans (g : List (String × List Agg)) :
    ∀ a b c : String, localeLE g a b → localeLE g b c → localeLE g a c := by
  intro a b c
  simp only [localeLE, decide_eq_true_eq]
  omega

lemma localeLE_total (g : List (String × List Agg)) :
    ∀ a b : String, localeLE g a b || localeLE g b a := by
  intro a b
  simp only [localeLE, Bool.or_eq_true, decide_eq_true_eq]
  omega

lemma sortStage_perm (vals : List Agg) : (sortStage vals).Perm vals :=
  (List.reverse_perm _).trans (List.mergeSort_perm vals byExhibits)

lemma sortStage_length (vals : List Agg) : (sortStage vals).length = vals.length :=
  (sortStage_perm vals).length_eq

/-- The sort stage is descending by exhibit count. -/
lemma sortStage_sorted (vals : List Agg) :
    (sortStage vals).Pairwise (fun a b => b.exhibits.length ≤ a.exhibits.length) := by
  have h := List.sorted_mergeSort byExhibits_trans byExhibits_total vals
  rw [sortStage, List.pairwise_reverse]
  exact h.imp (by simp only [byExhibits, decide_eq_true_eq]; exact fun h => h)

/-! ### Lemmas about the aggregation loop -/

lemma validExhibit_false_of_code (e : Exhibit) (h : e.code = none) :
    decide (validExhibit e) = false := by
  simp [validExhibit, h]

lemma validExhibit_false_of_name (e : Exhibit) (h : e.name = none) :
    decide (validExhibit e) = false := by
  simp [validExhibit, h]

/-- The number of lookups performed is bounded by the number of valid
exhibits processed. -/
lemma aggregate_lookups_length (st : Store) :
    ∀ (es : List Exhibit) (m : AggMap) (ls : List PyVal) (run : AggRun),
      aggregate st es m ls = .ok run →
      run.lookups.length ≤ ls.length + (es.filter (fun e => decide (validExhibit e))).length
  | [], m, ls, run => by
    intro h
    simp only [aggregate, Except.ok.injEq] at h
    simp [← h]
  | ⟨c, n⟩ :: rest, m, ls, run => by
    intro h
    rcases c with _ | mid
    · simp only [aggregate] at h
      have hfil : List.filter (fun e => decide (validExhibit e))
          ((⟨none, n⟩ : Exhibit) :: rest) = rest.filter (fun e => decide (validExhibit e)) := by
        simp [List.filter_cons, validExhibit]
      rw [hfil]
      exact aggregate_lookups_length st rest m ls run h
    · rcases n with _ | ename
      · simp only [aggregate] at h
        have hfil : List.filter (fun e => decide (validExhibit e))
            ((⟨some mid, none⟩ : Exhibit) :: rest) =
              rest.filter (fun e => decide (validExhibit e)) := by
          simp [List.filter_cons, validExhibit]
        rw [hfil]
        exact aggregate_lookups_length st rest m ls run h
      · simp only [aggregate] at h
        have hfil : List.filter (fun e => decide (validExhibit e))
            ((⟨some mid, some ename⟩ : Exhibit) :: rest) =
              ⟨some mid, some ename⟩ :: rest.filter (fun e => decide (validExhibit e)) := by
          simp [List.filter_cons, validExhibit]
        rw [hfil, List.length_cons]
        have hstep : run.lookups.length ≤ ls.length + 1 +
            (rest.filter (fun e => decide (validExhibit e))).length := by
          by_cases hl : (lookupA m mid).isSome
          · rw [if_pos hl] at h
            have := aggregate_lookups_length st rest (appendEx m mid ename) ls run h
            omega
          · rw [if_neg hl] at h
            rcases hg : get_by_id st mid with err | mm
            · rw [hg] at h; exact absurd h (by simp)
            · rw [hg] at h
              rcases mm with _ | ⟨mloc, mnm⟩
              · have := aggregate_lookups_length st rest m (ls ++ [mid]) run h
                simp at this
                omega
              · rcases mloc with _ | loc
                · have := aggregate_lookups_length st rest m (ls ++ [mid]) run h
                  simp at this
                  omega
                · rcases mnm with _ | mname
                  · have := aggregate_lookups_length st rest m (ls ++ [mid]) run h
                    simp at this
                    omega
                  · have := aggregate_lookups_length st rest
                      (m ++ [(mid, ⟨mname, loc, [ename]⟩)]) (ls ++ [mid]) run h
                    simp at this
                    omega
        omega

/-- Identifier `mid` keeps its membership status in the map under `appendEx`. -/
lemma isSome_lookupA_appendEx (m : AggMap) (mid k : PyVal) (nm : String) :
    (lookupA (appendEx m k nm) mid).isSome = (lookupA m mid).isSome := by
  rw [lookupA_appendEx]
  by_cases h : mid = k <;> simp [h]

/-- An identifier that resolves to a valid museum record is looked up at most
once beyond its prior occurrences in the trace, and not at all once it has an
aggregate. -/
lemma aggregate_lookups_count (st : Store) (mid : PyVal)
    (hres : resolves st mid = true) :
    ∀ (es : List Exhibit) (m : AggMap) (ls : List PyVal) (run : AggRun),
      aggregate st es m ls = .ok run →
      run.lookups.count mid ≤
        ls.count mid + (if (lookupA m mid).isSome then 0 else 1)
  | [], m, ls, run => by
    intro h
    simp only [aggregate, Except.ok.injEq] at h
    subst h
    simp only
    split <;> omega
  | ⟨c, n⟩ :: rest, m, ls, run => by
    intro h
    rcases c with _ | mid'
    · simp only [aggregate] at h
      exact aggregate_lookups_count st mid hres rest m ls run h
    · rcases n with _ | ename
      · simp only [aggregate] at h
        exact aggregate_lookups_count st mid hres rest m ls run h
      · simp only [aggregate] at h
        have hcount : mid' ≠ mid → (ls ++ [mid']).count mid = ls.count mid := by
          intro hmm
          have : (mid' == mid) = false := by
            simp only [beq_eq_false_iff_ne, ne_eq]
            exact hmm
          simp [List.count_append, List.count_cons, this]
        by_cases hl : (lookupA m mid').isSome
        · rw [if_pos hl] at h
          have := aggregate_lookups_count st mid hres rest (appendEx m mid' ename) ls run h
          rwa [isSome_lookupA_appendEx] at this
        · rw [if_neg hl] at h
          rcases hg : get_by_id st mid' with err | mm
          · rw [hg] at h; exact absurd h (by simp)
          · rw [hg] at h
            rcases mm with _ | ⟨mloc, mnm⟩
            · have hne : mid' ≠ mid := by
                intro hEq
                subst hEq
                simp [resolves, resolvedInfo, hg] at hres
              have := aggregate_lookups_count st mid hres rest m (ls ++ [mid']) run h
              rwa [hcount hne] at this
            · rcases mloc with _ | loc
              · have hne : mid' ≠ mid := by
                  intro hEq
                  subst hEq
                  rcases mnm with _ | mname <;> simp [resolves, resolvedInfo, hg] at hres
                have := aggregate_lookups_count st mid hres rest m (ls ++ [mid']) run h
                rwa [hcount hne] at this
              · rcases mnm with _ | mname
                · have hne : mid' ≠ mid := by
                    intro hEq
                    subst hEq
                    simp [resolves, resolvedInfo, hg] at hres
                  have := aggregate_lookups_count st mid hres rest m (ls ++ [mid']) run h
                  rwa [hcount hne] at this
                · have := aggregate_lookups_count st mid hres rest
                    (m ++ [(mid', ⟨mname, loc, [ename]⟩)]) (ls ++ [mid']) run h
                  by_cases hEq : mid' = mid
                  · subst hEq
                    have hnone : lookupA m mid' = none := by
                      rcases h1 : lookupA m mid' with _ | a
                      · rfl
                      · rw [h1] at hl; simp at hl
                    have hsome : (lookupA (m ++ [(mid', ⟨mname, loc, [ename]⟩)]) mid').isSome := by
                      rw [lookupA_append_of_none m _ mid' hnone]
                      simp [lookupA]
                    rw [if_pos hsome] at this
                    rw [if_neg hl]
                    have hcnt : (ls ++ [mid']).count mid' = ls.count mid' + 1 := by
                      simp [List.count_append]
                    omega
                  · have hsame : (lookupA (m ++ [(mid', ⟨mname, loc, [ename]⟩)]) mid).isSome =
                        (lookupA m mid).isSome := by
                      rcases h1 : lookupA m mid with _ | a
                      · rw [lookupA_append_of_none m _ mid h1]
                        simp [lookupA, hEq]
                      · rw [lookupA_append_of_some m _ mid a h1]
                    rw [hsame, hcount hEq] at this
                    exact this

/-! ### Lemmas for the aggregation characterization -/

lemma namesFor_cons_nocode (n : Option String) (rest : List Exhibit) (mid : PyVal) :
    namesFor (⟨none, n⟩ :: rest) mid = namesFor rest mid := by
  simp [namesFor, List.filterMap_cons]

lemma namesFor_cons_noname (c : Option PyVal) (rest : List Exhibit) (mid : PyVal) :
    namesFor (⟨c, none⟩ :: rest) mid = namesFor rest mid := by
  simp [namesFor, List.filterMap_cons]

lemma namesFor_cons_eq (mid : PyVal) (ename : String) (rest : List Exhibit) :
    namesFor (⟨some mid, some ename⟩ :: rest) mid = ename :: namesFor rest mid := by
  simp [namesFor, List.filterMap_cons]

lemma namesFor_cons_ne (mid' mid : PyVal) (ename : String) (rest : List Exhibit)
    (h : mid ≠ mid') :
    namesFor (⟨some mid', some ename⟩ :: rest) mid = namesFor rest mid := by
  have h' : ¬ (mid' = mid) := fun h1 => h h1.symm
  simp [namesFor, List.filterMap_cons, h']

/-- Full characterization of one aggregation run: how the final mapping's
entries look, relative to the initial mapping. -/
lemma aggregate_char (st : Store) :
    ∀ (es : List Exhibit) (m : AggMap) (ls : List PyVal) (run : AggRun),
      aggregate st es m ls = .ok run →
      (∀ mid a, lookupA m mid = some a →
        lookupA run.map mid = some { a with exhibits := a.exhibits ++ namesFor es mid }) ∧
      (∀ mid, lookupA m mid = none →
        lookupA run.map mid =
          (resolvedInfo st mid).bind (fun i =>
            if namesFor es mid = [] then none
            else some ⟨i.1, i.2, namesFor es mid⟩))
  | [], m, ls, run => by
    intro h
    simp only [aggregate, Except.ok.injEq] at h
    subst h
    constructor
    · intro mid a hma
      simp only [namesFor, List.filterMap_nil, List.append_nil]
      exact hma
    · intro mid hma
      simp only [namesFor, List.filterMap_nil]
      rw [hma]
      rcases resolvedInfo st mid with _ | i <;> simp
  | ⟨c, n⟩ :: rest, m, ls, run => by
    intro h
    rcases c with _ | mid'
    · have ih := aggregate_char st rest m ls run h
      constructor
      · intro mid a hma
        rw [namesFor_cons_nocode]
        exact ih.1 mid a hma
      · intro mid hma
        rw [namesFor_cons_nocode]
        exact ih.2 mid hma
    · rcases n with _ | ename
      · have ih := aggregate_char st rest m ls run h
        constructor
        · intro mid a hma
          rw [namesFor_cons_noname]
          exact ih.1 mid a hma
        · intro mid hma
          rw [namesFor_cons_noname]
          exact ih.2 mid hma
      · rcases hl : lookupA m mid' with _ | a0
        · -- the identifier is not in the map yet: a lookup happens
          simp only [aggregate] at h
          rw [hl] at h
          rw [if_neg (by simp)] at h
          have hskip : resolvedInfo st mid' = none →
              aggregate st rest m (ls ++ [mid']) = .ok run →
              (∀ mid a, lookupA m mid = some a →
                lookupA run.map mid = some { a with exhibits := a.exhibits ++ namesFor (⟨some mid', some ename⟩ :: rest) mid }) ∧
              (∀ mid, lookupA m mid = none →
                lookupA run.map mid =
                  (resolvedInfo st mid).bind (fun i =>
                    if namesFor (⟨some mid', some ename⟩ :: rest) mid = [] then none
                    else some ⟨i.1, i.2,
                      namesFor (⟨some mid', some ename⟩ :: rest) mid⟩)) := by
            intro hres0 h'
            have ih := aggregate_char st rest m (ls ++ [mid']) run h'
            constructor
            · intro mid a hma
              have hne : mid ≠ mid' := by
                intro hEq
                rw [hEq, hl] at hma
                exact absurd hma (by simp)
              rw [namesFor_cons_ne mid' mid ename rest hne]
              exact ih.1 mid a hma
            · intro mid hma
              by_cases hEq : mid = mid'
              · subst hEq
                rw [ih.2 mid hma, hres0]
                simp
              · rw [namesFor_cons_ne mid' mid ename rest hEq]
                exact ih.2 mid hma
          rcases hg : get_by_id st mid' with err | mm
          · rw [hg] at h
            exact absurd h (by simp)
          · rw [hg] at h
            rcases mm with _ | ⟨mloc, mnm⟩
            · exact hskip (by simp [resolvedInfo, hg]) h
            · rcases mloc with _ | loc
              · exact hskip (by
                  rcases mnm with _ | mname <;> simp [resolvedInfo, hg]) h
              · rcases mnm with _ | mname
                · exact hskip (by simp [resolvedInfo, hg]) h
                · -- the museum resolves: an aggregate is created
                  have hres : resolvedInfo st mid' = some (mname, loc) := by
                    simp [resolvedInfo, hg]
                  have ih := aggregate_char st rest
                    (m ++ [(mid', ⟨mname, loc, [ename]⟩)]) (ls ++ [mid']) run h
                  constructor
                  · intro mid a hma
                    have hne : mid ≠ mid' := by
                      intro hEq
                      rw [hEq, hl] at hma
                      exact absurd hma (by simp)
                    rw [namesFor_cons_ne mid' mid ename rest hne]
                    exact ih.1 mid a (lookupA_append_of_some m _ mid a hma)
                  · intro mid hma
                    by_cases hEq : mid = mid'
                    · subst hEq
                      have hnew : lookupA (m ++ [(mid, ⟨mname, loc, [ename]⟩)]) mid =
                          some ⟨mname, loc, [ename]⟩ := by
                        rw [lookupA_append_of_none m _ mid hma]
                        simp [lookupA]
                      have := ih.1 mid ⟨mname, loc, [ename]⟩ hnew
                      rw [namesFor_cons_eq mid ename rest]
                      rw [hres]
                      simp only [Option.some_bind]
                      rw [if_neg (by simp)]
                      simpa using this
                    · rw [namesFor_cons_ne mid' mid ename rest hEq]
                      have hstill : lookupA (m ++ [(mid', ⟨mname, loc, [ename]⟩)]) mid = none := by
                        rw [lookupA_append_of_none m _ mid hma]
                        simp [lookupA]
                        intro h1
                        exact absurd h1.symm hEq
                      exact ih.2 mid hstill
        · -- the identifier already has an aggregate: append, no lookup
          simp only [aggregate] at h
          rw [hl] at h
          rw [if_pos (by simp)] at h
          have ih := aggregate_char st rest (appendEx m mid' ename) ls run h
          constructor
          · intro mid a hma
            by_cases hEq : mid = mid'
            · subst hEq
              rw [hl] at hma
              simp only [Option.some.injEq] at hma
              subst hma
              have hup : lookupA (appendEx m mid ename) mid =
                  some { a0 with exhibits := a0.exhibits ++ [ename] } := by
                rw [lookupA_appendEx]
                simp [hl]
              have := ih.1 mid _ hup
              rw [namesFor_cons_eq mid ename rest]
              simpa [List.append_assoc] using this
            · have hup : lookupA (appendEx m mid' ename) mid = some a := by
                rw [lookupA_appendEx]
                simp [hEq, hma]
              rw [namesFor_cons_ne mid' mid ename rest hEq]
              exact ih.1 mid a hup
          · intro mid hma
            have hEq : mid ≠ mid' := by
              intro hEq
              rw [hEq, hl] at hma
              exact absurd hma (by simp)
            have hup : lookupA (appendEx m mid' ename) mid = none := by
              rw [lookupA_appendEx]
              simp [hEq, hma]
            rw [namesFor_cons_ne mid' mid ename rest hEq]
            exact ih.2 mid hup

/-- Keys of the aggregate mapping stay distinct through an aggregation run. -/
lemma aggregate_nodup (st : Store) :
    ∀ (es : List Exhibit) (m : AggMap) (ls : List PyVal) (run : AggRun),
      aggregate st es m ls = .ok run →
      (m.map Prod.fst).Nodup → (run.map.map Prod.fst).Nodup
  | [], m, ls, run => by
    intro h hnd
    simp only [aggregate, Except.ok.injEq] at h
    subst h
    exact hnd
  | ⟨c, n⟩ :: rest, m, ls, run => by
    intro h hnd
    rcases c with _ | mid'
    · exact aggregate_nodup st rest m ls run h hnd
    · rcases n with _ | ename
      · exact aggregate_nodup st rest m ls run h hnd
      · rcases hl : lookupA m mid' with _ | a0
        · simp only [aggregate] at h
          rw [hl] at h
          rw [if_neg (by simp)] at h
          rcases hg : get_by_id st mid' with err | mm
          · rw [hg] at h
            exact absurd h (by simp)
          · rw [hg] at h
            rcases mm with _ | ⟨mloc, mnm⟩
            · exact aggregate_nodup st rest m (ls ++ [mid']) run h hnd
            · rcases mloc with _ | loc
              · exact aggregate_nodup st rest m (ls ++ [mid']) run h hnd
              · rcases mnm with _ | mname
                · exact aggregate_nodup st rest m (ls ++ [mid']) run h hnd
                · refine aggregate_nodup st rest
                    (m ++ [(mid', ⟨mname, loc, [ename]⟩)]) (ls ++ [mid']) run h ?_
                  have hnotmem : mid' ∉ m.map Prod.fst := by
                    intro hmem
                    have := (lookupA_isSome_iff m mid').mpr hmem
                    rw [hl] at this
                    exact absurd this (by simp)
                  simp [List.nodup_append, hnd, hnotmem]
        · simp only [aggregate] at h
          rw [hl] at h
          rw [if_pos (by simp)] at h
          have := aggregate_nodup st rest (appendEx m mid' ename) ls run h
          rw [appendEx_keys] at this
          exact this hnd

/-- In a mapping with distinct keys, every entry is found by `lookupA`. -/
lemma lookupA_of_mem_nodup :
    ∀ (m : AggMap), (m.map Prod.fst).Nodup → ∀ p ∈ m, lookupA m p.1 = some p.2
  | [], _, p, hp => by simp at hp
  | (k, a) :: m, hnd, p, hp => by
    rcases List.mem_cons.mp hp with h | h
    · subst h
      simp [lookupA]
    · have hk : k ≠ p.1 := by
        intro hEq
        have hmem : p.1 ∈ m.map Prod.fst := List.mem_map_of_mem Prod.fst h
        rw [List.map_cons, List.nodup_cons] at hnd
        exact hnd.1 (hEq ▸ hmem)
      rw [lookupA, if_neg hk]
      exact lookupA_of_mem_nodup m (by
        rw [List.map_cons, List.nodup_cons] at hnd
        exact hnd.2) p h

/-! ### Lemmas about the relevance filter -/

/-- A successful filter run destructured: a non-empty sorted stage with a
non-zero top count, the output being the truncated ratio survivors. -/
lemma filter_relevant_ok (m : AggMap) (border select : ℚ) (out : List Agg)
    (h : filter_relevant m border select = .ok out) :
    ∃ top tail, sortStage (m.map Prod.snd) = top :: tail ∧
      top.exhibits.length ≠ 0 ∧
      out = ((sortStage (m.map Prod.snd)).filter (ratioOk top.exhibits.length border)).take
        (Nat.ceil ((((sortStage (m.map Prod.snd)).filter
          (ratioOk top.exhibits.length border)).length : ℚ) * select)) := by
  simp only [filter_relevant] at h
  split at h
  · exact absurd h (by simp)
  · rename_i top tail heq
    by_cases h0 : top.exhibits.length = 0
    · rw [if_pos h0] at h
      exact absurd h (by simp)
    · rw [if_neg h0] at h
      simp only [Except.ok.injEq] at h
      exact ⟨top, tail, heq, h0, h.symm⟩

/-- Evaluation of the filter on the two-aggregate tie input: the stable
ascending sort keeps the input order and the reversal swaps it. -/
lemma filter_relevant_mapTie :
    filter_relevant mapTie (4/100) (4/5) =
      .ok [⟨"B", "L", ["y"]⟩, ⟨"A", "L", ["x"]⟩] := by
  have h : sortStage (mapTie.map Prod.snd) =
      [⟨"B", "L", ["y"]⟩, ⟨"A", "L", ["x"]⟩] := by
    unfold sortStage mapTie
    rw [List.mergeSort_of_sorted (by decide)]
    rfl
  have hc : Nat.ceil ((8:ℚ) / 5) = 2 := by
    rw [Nat.ceil_eq_iff (by norm_num)]
    norm_num
  simp only [filter_relevant, h]
  norm_num [ratioOk, List.filter, hc]

/-- The sorted key sequence is descending by group size. -/
lemma sortedKeysOf_sorted (ms : List Agg) :
    (sortedKeysOf ms).Pairwise (fun a b =>
      (lookupG (groupLoc ms) b).length ≤ (lookupG (groupLoc ms) a).length) := by
  have h := List.sorted_mergeSort (localeLE_trans (groupLoc ms))
    (localeLE_total (groupLoc ms)) ((groupLoc ms).map Prod.fst)
  rw [sortedKeysOf, List.pairwise_reverse]
  exact h.imp (by simp only [localeLE, decide_eq_true_eq]; exact fun h => h)

/-! ### Claim theorems -/

/-- Claim C4 counterexample: two aggregates with equal exhibit counts come out
of the relevance filter in the reverse of their input (mapping-iteration)
order, so the descending sort is not stable in the claimed sense. -/
theorem c4_counterexample :
    filter_relevant mapTie (4/100) (4/5) =
      .ok [⟨"B", "L", ["y"]⟩, ⟨"A", "L", ["x"]⟩] ∧
    mapTie.map Prod.snd = [⟨"A", "L", ["x"]⟩, ⟨"B", "L", ["y"]⟩] ∧
    (⟨"A", "L", ["x"]⟩ : Agg) ≠ ⟨"B", "L", ["y"]⟩ :=
  ⟨filter_relevant_mapTie, rfl, by decide⟩

/-- Claim C4 (amended): the code reverses a stable ascending sort, so
aggregates with equal exhibit counts appear in the sorted stage — of which
the filter output is a subsequence — in the reverse of their input order. -/
theorem c4_equal_counts_reversed (m : AggMap) (x y : Agg) (border select : ℚ)
    (out : List Agg)
    (hsub : [x, y].Sublist (m.map Prod.snd))
    (heq : x.exhibits.length = y.exhibits.length)
    (hout : filter_relevant m border select = .ok out) :
    [y, x].Sublist (sortStage (m.map Prod.snd)) ∧
    out.Sublist (sortStage (m.map Prod.snd)) := by
  constructor
  · have h1 : [x, y].Sublist ((m.map Prod.snd).mergeSort byExhibits) :=
      List.pair_sublist_mergeSort byExhibits_trans byExhibits_total
        (by simp [byExhibits, heq]) hsub
    have h2 := h1.reverse
    simpa [sortStage] using h2
  · obtain ⟨top, tail, hst, h0, hout'⟩ := filter_relevant_ok m border select out hout
    rw [hout']
    exact (List.take_sublist _ _).trans (List.filter_sublist _)

/-- Claim C4 witness: the amended statement instantiated on the tie input. -/
theorem c4_equal_counts_reversed_witness :
    [(⟨"B", "L", ["y"]⟩ : Agg), ⟨"A", "L", ["x"]⟩].Sublist
      (sortStage (mapTie.map Prod.snd)) ∧
    ([(⟨"B", "L", ["y"]⟩ : Agg), ⟨"A", "L", ["x"]⟩] : List Agg).Sublist
      (sortStage (mapTie.map Prod.snd)) :=
  c4_equal_counts_reversed mapTie ⟨"A", "L", ["x"]⟩ ⟨"B", "L", ["y"]⟩ (4/100) (4/5)
    [⟨"B", "L", ["y"]⟩, ⟨"A", "L", ["x"]⟩] (List.Sublist.refl _) (by decide)
    filter_relevant_mapTie

/-- Claim C1: the claim says a query with zero aggregates propagates as an
empty result and the relevance filter returns an empty sequence on empty
input; the code instead raises `IndexError` at `res_museums[0]`, both in the
filter alone and through the whole pipeline. -/
theorem c1_empty_input_raises_indexError :
    filter_relevant [] (4/100) (4/5) = .error .indexError ∧
    get_sorted_locales storeEmpty "anything" 7 = .error .indexError := by
  have h1 : filter_relevant ([] : AggMap) (4/100) (4/5) = .error .indexError := by
    simp [filter_relevant, sortStage]
  refine ⟨h1, ?_⟩
  have h2 : get_sorted_locales storeEmpty "anything" 7 =
      (fun a => group_stage a 7) <$> filter_relevant [] (4/100) (4/5) := rfl
  rw [h2, h1]
  rfl

/-- Claim C2 counterexample: on a store whose museum 5 is absent, two valid
exhibits referencing identifier 5 trigger two museum lookups, exceeding the
single distinct `museumId` value among the valid exhibits. -/
theorem c2_counterexample :
    get_museums_with_locales_and_exhibits storeAbsent "q" =
      .ok ⟨[], [.int 5, .int 5]⟩ ∧
    ¬ (([PyVal.int 5, .int 5] : List PyVal).length ≤
        (distinctIds (storeAbsent.search "q")).length) :=
  ⟨rfl, by decide⟩

/-- Claim C2 (amended): a museum lookup is performed at most once per
identifier that resolves to a valid museum record; identifiers that fail to
resolve are looked up once per valid exhibit referencing them, so the lookup
count is bounded by the number of valid exhibits, not by the number of
distinct identifiers. -/
theorem c2_lookup_bounds (st : Store) (es : List Exhibit) (run : AggRun)
    (mid : PyVal) (h : aggregate st es [] [] = .ok run) :
    (resolves st mid = true → run.lookups.count mid ≤ 1) ∧
    run.lookups.length ≤ (es.filter (fun e => decide (validExhibit e))).length := by
  constructor
  · intro hres
    have := aggregate_lookups_count st mid hres es [] [] run h
    simpa [lookupA] using this
  · have := aggregate_lookups_length st es [] [] run h
    simpa using this

/-- Claim C2 witness: the amended bounds instantiated on scenario A's store. -/
theorem c2_lookup_bounds_witness :
    runA.lookups.count (.int 1) ≤ 1 ∧
    runA.lookups.length ≤
      ((storeA.search "q").filter (fun e => decide (validExhibit e))).length :=
  ⟨(c2_lookup_bounds storeA (storeA.search "q") runA (.int 1) rfl).1 (by decide),
   (c2_lookup_bounds storeA (storeA.search "q") runA (.int 1) rfl).2⟩

/-- Claim C3: an exhibit with a null `museumId` or null `name` is skipped
silently (state unchanged, no error), and a museum record found with a null
locale name or null display name is treated as not found: the exhibit is
skipped and no aggregate is created (only the lookup trace grows). -/
theorem c3_missing_fields_skipped (st : Store) (e : Exhibit) (rest : List Exhibit)
    (m : AggMap) (ls : List PyVal) (mid : PyVal) (ename : String) (mus : Museum) :
    ((e.code = none ∨ e.name = none) →
      aggregate st (e :: rest) m ls = aggregate st rest m ls) ∧
    (e.code = some mid → e.name = some ename → lookupA m mid = none →
      get_by_id st mid = .ok (some mus) → (mus.locale = none ∨ mus.name = none) →
      aggregate st (e :: rest) m ls = aggregate st rest m (ls ++ [mid])) := by
  obtain ⟨c, n⟩ := e
  constructor
  · rintro (hc | hn)
    · simp only at hc
      subst hc
      rfl
    · simp only at hn
      subst hn
      rcases c with _ | mid' <;> rfl
  · intro hc hn hl hg hnull
    simp only at hc hn
    subst hc
    subst hn
    obtain ⟨mloc, mnm⟩ := mus
    have hl' : (lookupA m mid).isSome = false := by rw [hl]; rfl
    rcases hnull with h | h
    · simp only at h
      subst h
      simp only [aggregate, hl', Bool.false_eq_true, if_false, hg]
    · simp only at h
      subst h
      rcases mloc with _ | loc <;>
        simp only [aggregate, hl', Bool.false_eq_true, if_false, hg]

/-- Claim C3 witness: both skip behaviors on a store whose museum 3 has a
null locale name. -/
theorem c3_missing_fields_skipped_witness :
    aggregate storeNullLocale [⟨none, some "x"⟩] [] [] =
      aggregate storeNullLocale [] [] [] ∧
    aggregate storeNullLocale [⟨some (.int 3), some "x"⟩] [] [] =
      aggregate storeNullLocale [] [] ([] ++ [.int 3]) :=
  ⟨(c3_missing_fields_skipped storeNullLocale ⟨none, some "x"⟩ [] [] []
      (.int 3) "x" ⟨none, some "M3"⟩).1 (Or.inl rfl),
   (c3_missing_fields_skipped storeNullLocale ⟨some (.int 3), some "x"⟩ [] [] []
      (.int 3) "x" ⟨none, some "M3"⟩).2 rfl rfl rfl rfl (Or.inl rfl)⟩

/-- Claim C5: on a non-empty aggregate input (whose aggregates, per the data
model, carry non-empty exhibit lists), the filter returns exactly the first
`ceil(k * select)` entries of the descending-sorted sequence restricted to the
ratio survivors; consequently the output is sorted descending by exhibit
count, no longer than the input, and keeps the top element first. -/
theorem c5_filter_relevant_exact (m : AggMap) (border select : ℚ)
    (hne : m.map Prod.snd ≠ [])
    (hex : ∀ p ∈ m, p.2.exhibits ≠ [])
    (hb : border ≤ 1) (hs : 0 < select) :
    filter_relevant m border select =
      .ok (filterRelevantSpec (sortStage (m.map Prod.snd)) border select) ∧
    (filterRelevantSpec (sortStage (m.map Prod.snd)) border select).Pairwise
      (fun a b => b.exhibits.length ≤ a.exhibits.length) ∧
    (filterRelevantSpec (sortStage (m.map Prod.snd)) border select).length ≤
      (m.map Prod.snd).length ∧
    (filterRelevantSpec (sortStage (m.map Prod.snd)) border select).head? =
      (sortStage (m.map Prod.snd)).head? := by
  rcases hst : sortStage (m.map Prod.snd) with _ | ⟨top, tail⟩
  · have := sortStage_length (m.map Prod.snd)
    rw [hst] at this
    exact absurd (List.length_eq_zero.mp this.symm) hne
  · have htopmem : top ∈ m.map Prod.snd := by
      have : top ∈ sortStage (m.map Prod.snd) := by
        rw [hst]; exact List.mem_cons_self _ _
      exact (sortStage_perm (m.map Prod.snd)).mem_iff.mp this
    have h0 : top.exhibits.length ≠ 0 := by
      obtain ⟨p, hp, hp2⟩ := List.mem_map.mp htopmem
      intro hzero
      exact hex p hp (hp2 ▸ List.length_eq_zero.mp hzero)
    have hspec : filterRelevantSpec (top :: tail) border select =
        ((top :: tail).filter (ratioOk top.exhibits.length border)).take
          (Nat.ceil ((((top :: tail).filter
            (ratioOk top.exhibits.length border)).length : ℚ) * select)) := rfl
    have heq1 : filter_relevant m border select =
        .ok (filterRelevantSpec (top :: tail) border select) := by
      simp only [filter_relevant, hst, h0, if_false, hspec]
    refine ⟨heq1, ?_, ?_, ?_⟩
    · rw [hspec]
      have hsub : (((top :: tail).filter (ratioOk top.exhibits.length border)).take
          (Nat.ceil ((((top :: tail).filter
            (ratioOk top.exhibits.length border)).length : ℚ) * select))).Sublist
          (top :: tail) :=
        (List.take_sublist _ _).trans (List.filter_sublist _)
      have := sortStage_sorted (m.map Prod.snd)
      rw [hst] at this
      exact this.sublist hsub
    · rw [hspec]
      have h1 := List.length_take (Nat.ceil ((((top :: tail).filter
        (ratioOk top.exhibits.length border)).length : ℚ) * select))
        ((top :: tail).filter (ratioOk top.exhibits.length border))
      have h2 := List.length_filter_le (ratioOk top.exhibits.length border) (top :: tail)
      have h3 := sortStage_length (m.map Prod.snd)
      rw [hst] at h3
      omega
    · rw [hspec]
      have hr : ratioOk top.exhibits.length border top = true := by
        simp only [ratioOk, decide_eq_true_eq]
        rw [div_self (by exact_mod_cast h0)]
        exact hb
      rw [List.filter_cons, if_pos hr]
      have hpos : 0 < Nat.ceil (((top :: tail.filter
          (ratioOk top.exhibits.length border)).length : ℚ) * select) := by
        refine Nat.ceil_pos.mpr (mul_pos ?_ hs)
        exact_mod_cast Nat.succ_pos _
      rcases hk : Nat.ceil (((top :: tail.filter
          (ratioOk top.exhibits.length border)).length : ℚ) * select) with _ | k
      · omega
      · simp [List.take_cons]

/-- Claim C5 witness: the exactness statement instantiated on the
two-aggregate input. -/
theorem c5_filter_relevant_exact_witness :
    (filter_relevant mapTie (4/100) (4/5) =
      .ok (filterRelevantSpec (sortStage (mapTie.map Prod.snd)) (4/100) (4/5))) ∧
    (filterRelevantSpec (sortStage (mapTie.map Prod.snd)) (4/100) (4/5)).Pairwise
      (fun a b => b.exhibits.length ≤ a.exhibits.length) ∧
    (filterRelevantSpec (sortStage (mapTie.map Prod.snd)) (4/100) (4/5)).length ≤
      (mapTie.map Prod.snd).length ∧
    (filterRelevantSpec (sortStage (mapTie.map Prod.snd)) (4/100) (4/5)).head? =
      (sortStage (mapTie.map Prod.snd)).head? :=
  c5_filter_relevant_exact mapTie (4/100) (4/5) (by decide) (by decide)
    (by norm_num) (by norm_num)

/-- Claim C6: the location grouping returns at most `limit` groups, sorted
descending by museum count, and each group's museums are exactly the
aggregates of that locale in the order they arrived from the filter. -/
theorem c6_group_stage_shape (ms : List Agg) (limit : Nat) :
    (group_stage ms limit).length ≤ limit ∧
    (group_stage ms limit).Pairwise (fun a b => b.2.length ≤ a.2.length) ∧
    ∀ p ∈ group_stage ms limit, p.2 = ms.filter (fun a => decide (a.locale = p.1)) := by
  refine ⟨?_, ?_, ?_⟩
  · simp only [group_stage, List.length_map, List.length_take]
    omega
  · have hp := sortedKeysOf_sorted ms
    have hcut := List.Pairwise.sublist
      (List.take_sublist (min limit (sortedKeysOf ms).length) (sortedKeysOf ms)) hp
    simp only [group_stage, List.pairwise_map]
    exact hcut
  · intro p hp
    simp only [group_stage, List.mem_map] at hp
    obtain ⟨l, hl, rfl⟩ := hp
    exact lookupG_groupLoc ms l

/-- Claim C7: the aggregate mapping built from an empty dict has distinct
keys, holds an entry for an identifier exactly when it resolves and has at
least one valid matching exhibit, and each entry's exhibit-name list is the
non-empty list of that museum's valid exhibit names in encounter order. -/
theorem c7_aggregate_mapping (st : Store) (es : List Exhibit) (run : AggRun)
    (h : aggregate st es [] [] = .ok run) :
    (run.map.map Prod.fst).Nodup ∧
    (∀ mid, lookupA run.map mid =
      (resolvedInfo st mid).bind (fun i =>
        if namesFor es mid = [] then none
        else some ⟨i.1, i.2, namesFor es mid⟩)) ∧
    ∀ p ∈ run.map, p.2.exhibits = namesFor es p.1 ∧ p.2.exhibits ≠ [] := by
  have hnd := aggregate_nodup st es [] [] run h (by simp)
  have hchar := (aggregate_char st es [] [] run h).2
  refine ⟨hnd, fun mid => hchar mid rfl, ?_⟩
  intro p hp
  have hlk := lookupA_of_mem_nodup run.map hnd p hp
  rw [hchar p.1 rfl] at hlk
  rcases hres : resolvedInfo st p.1 with _ | i
  · rw [hres] at hlk
    simp at hlk
  · rw [hres] at hlk
    simp only [Option.some_bind] at hlk
    by_cases hn0 : namesFor es p.1 = []
    · rw [if_pos hn0] at hlk
      simp at hlk
    · rw [if_neg hn0] at hlk
      simp only [Option.some.injEq] at hlk
      constructor
      · rw [← hlk]
      · rw [← hlk]
        simpa using hn0

/-- Claim C7 witness: the characterization instantiated on scenario A at
identifier 1. -/
theorem c7_aggregate_mapping_witness :
    (runA.map.map Prod.fst).Nodup ∧
    lookupA runA.map (.int 1) =
      (resolvedInfo storeA (.int 1)).bind (fun i =>
        if namesFor (storeA.search "q") (.int 1) = [] then none
        else some ⟨i.1, i.2, namesFor (storeA.search "q") (.int 1)⟩) :=
  ⟨(c7_aggregate_mapping storeA (storeA.search "q") runA rfl).1,
   (c7_aggregate_mapping storeA (storeA.search "q") runA rfl).2.1 (.int 1)⟩

/-- Claim C8: for a fixed store, query and limit, two runs of the full
pipeline produce identical results. -/
theorem c8_pipeline_deterministic (st : Store) (query : String) (limit : Nat)
    (r1 r2 : Except PyErr (List (String × List Agg)))
    (h1 : r1 = get_sorted_locales st query limit)
    (h2 : r2 = get_sorted_locales st query limit) : r1 = r2 :=
  h1.trans h2.symm

/-- Claim C8 witness: determinism instantiated on scenario A's store. -/
theorem c8_pipeline_deterministic_witness :
    get_sorted_locales storeA "q" 7 = get_sorted_locales storeA "q" 7 :=
  c8_pipeline_deterministic storeA "q" 7 _ _ rfl rfl

/-- Claim C10: the location tie-break is reverse first-seen order — a stable
ascending sort of the first-seen keys by group size followed by a full
reversal — and the emitted keys are a prefix of that reversed sequence. -/
theorem c10_locale_tiebreak (ms : List Agg) (limit : Nat) (l1 l2 : String)
    (hsub : [l1, l2].Sublist ((groupLoc ms).map Prod.fst))
    (heq : (lookupG (groupLoc ms) l1).length = (lookupG (groupLoc ms) l2).length) :
    [l2, l1].Sublist (sortedKeysOf ms) ∧
    (group_stage ms limit).map Prod.fst =
      (sortedKeysOf ms).take (min limit (sortedKeysOf ms).length) := by
  constructor
  · have h1 : [l1, l2].Sublist
        (((groupLoc ms).map Prod.fst).mergeSort (localeLE (groupLoc ms))) :=
      List.pair_sublist_mergeSort (localeLE_trans _) (localeLE_total _)
        (by simp [localeLE, heq]) hsub
    have h2 := h1.reverse
    simpa [sortedKeysOf] using h2
  · simp only [group_stage, List.map_map]
    have hcomp : (Prod.fst ∘ fun l : String => (l, lookupG (groupLoc ms) l)) = id := rfl
    rw [hcomp, List.map_id]

/-- Claim C10 witness: the tie-break instantiated on two equal-sized locales:
the later-seen locale comes first. -/
theorem c10_locale_tiebreak_witness :
    ["L2", "L1"].Sublist (sortedKeysOf msTie) ∧
    (group_stage msTie 7).map Prod.fst =
      (sortedKeysOf msTie).take (min 7 (sortedKeysOf msTie).length) :=
  c10_locale_tiebreak msTie 7 "L1" "L2" (List.Sublist.refl _) rfl

/-- The exhibit whose `museum_id` fails `int()` coercion causes the whole
aggregation to raise `ValueError`, provided every identifier already in the
map is coercible (as they must be, having been looked up successfully). -/
lemma aggregate_error_of_nonconvertible (st : Store) :
    ∀ (es : List Exhibit) (m : AggMap) (ls : List PyVal),
      (∀ k ∈ m.map Prod.fst, k.toIntCoe ≠ none) →
      (∃ e ∈ es, ∃ mid, e.code = some mid ∧ e.name ≠ none ∧ mid.toIntCoe = none) →
      aggregate st es m ls = .error .valueError
  | [], m, ls => by
    intro _ hbad
    simp at hbad
  | ⟨c, n⟩ :: rest, m, ls => by
    intro hkeys hbad
    have hrest : (∀ mid, (⟨c, n⟩ : Exhibit).code = some mid →
        (⟨c, n⟩ : Exhibit).name ≠ none → mid.toIntCoe ≠ none) →
        ∃ e ∈ rest, ∃ mid, e.code = some mid ∧ e.name ≠ none ∧ mid.toIntCoe = none := by
      intro hnot
      rcases hbad with ⟨e', he', mid, hc', hn', hconv⟩
      rcases List.mem_cons.mp he' with he' | he'
      · subst he'
        exact absurd hconv (hnot mid hc' hn')
      · exact ⟨e', he', mid, hc', hn', hconv⟩
    rcases c with _ | mid'
    · exact aggregate_error_of_nonconvertible st rest m ls hkeys
        (hrest (by intro mid hc; simp at hc))
    · rcases n with _ | ename
      · exact aggregate_error_of_nonconvertible st rest m ls hkeys
          (hrest (by intro mid _ hn; simp at hn))
      · by_cases hl : (lookupA m mid').isSome
        · have hbad' := hrest (by
            intro mid hc _
            simp only [Option.some.injEq] at hc
            subst hc
            exact hkeys mid' ((lookupA_isSome_iff m mid').mp hl))
          simp only [aggregate]
          rw [if_pos hl]
          refine aggregate_error_of_nonconvertible st rest (appendEx m mid' ename) ls ?_ hbad'
          rw [appendEx_keys]
          exact hkeys
        · simp only [aggregate]
          rw [if_neg hl]
          rcases hmc : mid'.toIntCoe with _ | nid
          · have hg : get_by_id st mid' = .error .valueError := by
              simp [get_by_id, hmc]
            rw [hg]
          · have hbad' := hrest (by
              intro mid hc _
              simp only [Option.some.injEq] at hc
              subst hc
              simp [hmc])
            have hg : get_by_id st mid' = .ok (st.museums nid) := by
              simp [get_by_id, hmc]
            rcases hm : st.museums nid with _ | ⟨mloc, mnm⟩
            · rw [hm] at hg
              rw [hg]
              exact aggregate_error_of_nonconvertible st rest m (ls ++ [mid']) hkeys hbad'
            · rw [hm] at hg
              rw [hg]
              rcases mloc with _ | loc
              · exact aggregate_error_of_nonconvertible st rest m (ls ++ [mid']) hkeys hbad'
              · rcases mnm with _ | mname
                · exact aggregate_error_of_nonconvertible st rest m (ls ++ [mid']) hkeys hbad'
                · refine aggregate_error_of_nonconvertible st rest
                    (m ++ [(mid', ⟨mname, loc, [ename]⟩)]) (ls ++ [mid']) ?_ hbad'
                  intro k hk
                  simp only [List.map_append, List.mem_append] at hk
                  rcases hk with hk | hk
                  · exact hkeys k hk
                  · simp only [List.map_cons, List.map_nil, List.mem_singleton] at hk
                    subst hk
                    simp [hmc]

/-- Claim C9: `get_by_id` coerces its identifier with `int(id)`, so a museum
code that is non-null but not integer-convertible makes the lookup — and with
it the whole join — raise `ValueError` instead of silently skipping the
exhibit. -/
theorem c9_nonconvertible_id_raises (st : Store) (v : PyVal) (es : List Exhibit)
    (hv : v.toIntCoe = none) :
    get_by_id st v = .error .valueError ∧
    ((∃ e ∈ es, e.code = some v ∧ e.name ≠ none) →
      aggregate st es [] [] = .error .valueError) := by
  constructor
  · simp [get_by_id, hv]
  · rintro ⟨e, he, hc, hn⟩
    exact aggregate_error_of_nonconvertible st es [] [] (by simp)
      ⟨e, he, v, hc, hn, hv⟩

/-- Claim C9 witness: the string code `"abc"` raises through the join. -/
theorem c9_nonconvertible_id_raises_witness :
    get_by_id storeBadId (.str "abc") = .error .valueError ∧
    aggregate storeBadId (storeBadId.search "q") [] [] = .error .valueError :=
  ⟨(c9_nonconvertible_id_raises storeBadId (.str "abc") (storeBadId.search "q")
      (by decide)).1,
   (c9_nonconvertible_id_raises storeBadId (.str "abc") (storeBadId.search "q")
      (by decide)).2
     ⟨⟨some (.str "abc"), some "a"⟩, List.mem_cons_self _ _, rfl, by simp⟩⟩

end Museums
